import Mathlib

/-!
Shallow embedding of `make_tarball.py`, the build pipeline of evergreen-ci/ide.

The script downloads VS Code extensions from the marketplace, downloads a
code-server release asset from GitHub, customizes branding inside the
extracted tree, packs everything into a gzipped tarball and optionally
uploads it to S3.  The outside world (HTTP responses, local directories,
the current date, the fresh temporary-directory name) is a `World` record;
every operation of the script becomes a pure function over it.  Fallible
steps return `Except String`, carrying the exception message the Python
code raises.
-/

set_option autoImplicit false

namespace MakeTarball

/-- Raw response bodies are byte lists. -/
abbrev Bytes := List Nat

/-- A JSON value as far as the script inspects it: the customizer only ever
writes string fields; everything else is an uninterpreted payload. -/
inductive Jval where
  | str : String → Jval
  | other : Nat → Jval
  deriving DecidableEq, Repr

/-- Content of a file on disk or inside an archive.  `json` is a file whose
bytes parse as a JSON object (the load/dump round trip of the script is the
identity on this representation); `tar` is a tarball with a compression tag
(the script always writes mode w:gz) and its entries. -/
inductive FileData where
  | bin : Bytes → FileData
  | json : List (String × Jval) → FileData
  | tar : String → List (List String × FileData) → FileData

/-- A directory tree flattened to an association list from relative paths
(component lists) to file contents. -/
abbrev Files := List (List String × FileData)

/-- One entry of the extension manifest: publisher, name, version. -/
structure Extension where
  publisher : String
  name : String
  version : String
  deriving DecidableEq, Repr

/-- One asset attached to a GitHub release: numeric id and file name. -/
structure Asset where
  id : Nat
  name : String
  deriving DecidableEq, Repr

/-- Python `needle in hay` substring test. -/
def strContains (hay needle : String) : Bool :=
  decide (needle.data <:+: hay.data)

/-- Association-list update with Python-dict semantics: replace the first
binding of the key, append a fresh binding otherwise. -/
def setKey {κ α : Type} [DecidableEq κ] : List (κ × α) → κ → α → List (κ × α)
  | [], k, v => [(k, v)]
  | p :: rest, k, v => if p.1 = k then (k, v) :: rest else p :: setKey rest k v

/-- Association-list lookup (first binding wins). -/
def getKey {κ α : Type} [DecidableEq κ] : List (κ × α) → κ → Option α
  | [], _ => none
  | p :: rest, k => if p.1 = k then some p.2 else getKey rest k

/-- Whether the association list binds the key. -/
def hasKey {κ α : Type} [DecidableEq κ] : List (κ × α) → κ → Bool
  | [], _ => false
  | p :: rest, k => p.1 = k || hasKey rest k

/-- The external world one run of the script observes. -/
structure World where
  /-- Parsed content of the manifest file; `none` models a missing or
  malformed file (`get_extension_list` raises). -/
  manifest : Option (List Extension)
  /-- marketplace GET: URL to status code and body. -/
  extGet : String → Nat × Bytes
  /-- GET of the release-info endpooint for a release name: status code and
  the parsed asset list of the JSON body. -/
  releaseGet : String → Nat × List Asset
  /-- GET of an asset id with Accept octet-stream: status code and the
  extracted content of the returned tar stream, as a map from top-level
  directory names to the files below them. -/
  assetGet : Nat → Nat × List (String × Files)
  /-- Directory listing of the local icons directory: file name to content. -/
  icons : List (String × FileData)
  /-- The local User directory, `none` when absent. -/
  userDir : Option Files
  /-- The local service directory, `none` when absent. -/
  serviceDir : Option Files
  /-- date.today().isoformat() -/
  today : String
  /-- The fresh name tempfile.TemporaryDirectory picks for the staging
  directory. -/
  tempName : String

/-- EXTENSION_DOWNLOAD_URL with publisher, name and version substituted. -/
def extensionDownloadUrl (e : Extension) : String :=
  "https://" ++ e.publisher ++
    ".gallery.vsassets.io/_apis/public/gallery/publisher/" ++ e.publisher ++
    "/extension/" ++ e.name ++ "/" ++ e.version ++
    "/assetbyname/Microsoft.VisualStudio.Services.VSIXPackage"

/-- Destination file name of one extension: publisher.name.vsix -/
def extensionFileName (e : Extension) : String :=
  e.publisher ++ "." ++ e.name ++ ".vsix"

/-- download_extensions: walk the manifest in order; GET each extension URL;
on 200 write the body to publisher.name.vsix in the destination directory
(an association list from file name to body), on anything else raise.
Returns the descriptors actually requested, the files written, and the
error message when a request failed. -/
def download_extensions (w : World) :
    List Extension → List (String × Bytes) →
      List Extension × List (String × Bytes) × Option String
  | [], files => ([], files, none)
  | e :: rest, files =>
    let r := w.extGet (extensionDownloadUrl e)
    if r.1 = 200 then
      let out := download_extensions w rest (setKey files (extensionFileName e) r.2)
      (e :: out.1, out.2)
    else
      ([e], files, some ("can\x27t get extension " ++ e.name))

/-- The asset-selection loop of download_code_server: iterate over the
assets and remember the current one whenever the architecture token occurs
in its name; no break, so a later match overwrites an earlier one. -/
def selectAsset (assets : List Asset) (architecture : String) : Option Asset :=
  assets.foldl (fun acc asset =>
    if strContains asset.name architecture then some asset else acc) none

/-- download_code_server: fetch the release info, select the asset whose
name contains the architecture token, fetch the asset, extract it, and
copytree the extracted directory named like the asset minus its last 7
characters into the destination; the result is that directory tree. -/
def download_code_server (w : World) (release architecture : String) :
    Except String Files :=
  let r := w.releaseGet release
  if r.1 ≠ 200 then
    .error "can\x27t get release info from GitHub"
  else
    match selectAsset r.2 architecture with
    | none =>
      .error ("architecture " ++ architecture ++ " not found in release " ++ release)
    | some asset =>
      let r2 := w.assetGet asset.id
      if r2.1 ≠ 200 then
        .error ("can\x27t get asset id " ++ toString asset.id ++ " from GitHub")
      else
        match getKey r2.2 (asset.name.dropRight 7) with
        | none => .error ("copytree: no directory " ++ asset.name.dropRight 7)
        | some tree => .ok tree

/-- ICON_PATH = src/browser/media/ -/
def iconPath (fileName : String) : List String :=
  ["src", "browser", "media", fileName]

/-- PRODUCT_PATH = lib/vscode/product.json -/
def productPath : List String := ["lib", "vscode", "product.json"]

/-- PWA_MANIFEST_PATH = src/browser/media/manifest.json -/
def pwaManifestPath : List String := ["src", "browser", "media", "manifest.json"]

/-- PRODUCT_NAME -/
def productName : String := "Evergreen - IDE"

/-- PRODUCT_NAME_SHORT -/
def productNameShort : String := "IDE"

/-- Copy every file of the local icons directory into ICON_PATH of the
tree, overwriting on file-name collision. -/
def copyIcons (w : World) (tree : Files) : Files :=
  w.icons.foldl (fun t ic => setKey t (iconPath ic.1) ic.2) tree

/-- Load the JSON object stored at a path; a missing file or one whose
content is not a JSON object raises. -/
def loadJsonAt (tree : Files) (p : List String) :
    Except String (List (String × Jval)) :=
  match getKey tree p with
  | some (.json obj) => .ok obj
  | _ => .error ("can\x27t load JSON at " ++ String.intercalate "/" p)

/-- customize_code_server: copy the icons, then load product.json, set
nameShort and nameLong, dump it back, then load the PWA manifest.json, set
short_name and name, dump it back. -/
def customize_code_server (w : World) (tree : Files) : Except String Files :=
  let t1 := copyIcons w tree
  match loadJsonAt t1 productPath with
  | .error e => .error e
  | .ok productJson =>
    let productJson2 := setKey (setKey productJson "nameShort" (.str productNameShort))
      "nameLong" (.str productName)
    let t2 := setKey t1 productPath (.json productJson2)
    match loadJsonAt t2 pwaManifestPath with
    | .error e => .error e
    | .ok manifestJson =>
      let manifestJson2 := setKey (setKey manifestJson "short_name" (.str productNameShort))
        "name" (.str productName)
      .ok (setKey t2 pwaManifestPath (.json manifestJson2))

/-- make_tarball: tarfile.open creates the gzipped output file first, then
the members are added in order: the code-server tree under code-server/,
the extension files under code-server/extension_packages/, then the local
User and service directories under code-server/User/ and
code-server/service/.  tar.add raises when User or service does not exist;
the exception path closes the stream without deleting the file, so the
result is always the tarball written at the output path — holding the
entries added before a failure — paired with the exception message when a
directory was missing. -/
def make_tarball (w : World) (codeServer : Files) (exts : List (String × Bytes)) :
    FileData × Option String :=
  let csEntries := codeServer.map (fun pc => ("code-server" :: pc.1, pc.2))
  let extEntries :=
    exts.map (fun nc => (["code-server", "extension_packages", nc.1], FileData.bin nc.2))
  match w.userDir with
  | none => (.tar "gz" (csEntries ++ extEntries), some "tar add: User not found")
  | some user =>
    let userEntries := user.map (fun pc => ("code-server" :: "User" :: pc.1, pc.2))
    match w.serviceDir with
    | none =>
      (.tar "gz" (csEntries ++ extEntries ++ userEntries), some "tar add: service not found")
    | some service =>
      (.tar "gz" (csEntries ++ extEntries ++ userEntries ++
        service.map (fun pc => ("code-server" :: "service" :: pc.1, pc.2))), none)

/-- The pipeline stages, for execution traces. -/
inductive Stage where
  | manifestLoaded
  | editorFetched
  | customized
  | extensionsFetched
  | archived
  | published
  deriving DecidableEq, Repr

/-- One boto3 upload_file call. -/
structure UploadCall where
  bucket : String
  key : String
  acl : String
  deriving DecidableEq, Repr

/-- The observable outcome of one run: the stages completed in order, the
result (the error is the uncaught exception message, surfaced as a
non-zero process exit), the files left on disk after the temporary
directory is cleaned up, and the S3 calls issued. -/
structure MainResult where
  trace : List Stage
  result : Except String Unit
  fs : Files
  uploads : List UploadCall

/-- The body of the `with tempfile.TemporaryDirectory()` block of main:
download code-server into tmp/code-server, customize it, download the
extensions into tmp/extension_packages, and write the tarball named
date_architecture_code-server.tgz into the destination directory.  Returns
the stages completed, the output file name on success, and the files
written so far (inside the staging directory and at the destination). -/
def pipelineBody (w : World) (release architecture : String)
    (exts : List Extension) (tmp dest : String) :
    List Stage × Except String String × Files :=
  match download_code_server w release architecture with
  | .error e => ([], .error e, [])
  | .ok cs =>
    match customize_code_server w cs with
    | .error e =>
      ([.editorFetched], .error e,
        cs.map (fun pc => (tmp :: "code-server" :: pc.1, pc.2)))
    | .ok cs2 =>
      let csFiles := cs2.map (fun pc => (tmp :: "code-server" :: pc.1, pc.2))
      let ext := download_extensions w exts []
      let extFiles := ext.2.1.map
        (fun nc => ([tmp, "extension_packages", nc.1], FileData.bin nc.2))
      match ext.2.2 with
      | some e =>
        ([.editorFetched, .customized], .error e, csFiles ++ extFiles)
      | none =>
        let outputName := w.today ++ "_" ++ architecture ++ "_code-server.tgz"
        let mk := make_tarball w cs2 ext.2.1
        match mk.2 with
        | some e =>
          ([.editorFetched, .customized, .extensionsFetched], .error e,
            csFiles ++ extFiles ++ [([dest, outputName], mk.1)])
        | none =>
          ([.editorFetched, .customized, .extensionsFetched, .archived],
            .ok outputName,
            csFiles ++ extFiles ++ [([dest, outputName], mk.1)])

/-- main: parse the manifest, run the pipeline inside a scoped temporary
directory (whose subtree is removed from the file system when the block
exits, normally or exceptionally), and afterwards, when an s3 bucket was
given, upload the tarball under evergreen/vscode/ with a public-read ACL. -/
def main (w : World) (release architecture dest : String)
    (s3Bucket : Option String) : MainResult :=
  match w.manifest with
  | none => ⟨[], .error "can\x27t read extension list", [], []⟩
  | some exts =>
    let body := pipelineBody w release architecture exts w.tempName dest
    let fsAfter := body.2.2.filter (fun pc => pc.1.head? ≠ some w.tempName)
    match body.2.1 with
    | .error e => ⟨.manifestLoaded :: body.1, .error e, fsAfter, []⟩
    | .ok outputName =>
      match s3Bucket with
      | none => ⟨.manifestLoaded :: body.1, .ok (), fsAfter, []⟩
      | some bucket =>
        ⟨.manifestLoaded :: body.1 ++ [.published], .ok (), fsAfter,
          [⟨bucket, "evergreen/vscode/" ++ outputName, "public-read"⟩]⟩

/-- The stage order main realizes on a fully successful run with an s3
bucket configured. -/
def stageOrder : List Stage :=
  [.manifestLoaded, .editorFetched, .customized, .extensionsFetched, .archived, .published]

/-- The value of one field of product.json inside a tree. -/
def productField (tree : Files) (k : String) : Option Jval :=
  match getKey tree productPath with
  | some (.json obj) => getKey obj k
  | _ => none

/-- The value of one field of the PWA manifest.json inside a tree. -/
def manifestField (tree : Files) (k : String) : Option Jval :=
  match getKey tree pwaManifestPath with
  | some (.json obj) => getKey obj k
  | _ => none

/-! ### Concrete sample data for witnesses and counterexamples -/

/-- product.json of the sample editor tree before customization. -/
def sampleProductJson : List (String × Jval) :=
  [("nameShort", .str "code-server"), ("version", .other 0)]

/-- PWA manifest.json of the sample editor tree before customization. -/
def samplePwaJson : List (String × Jval) :=
  [("name", .str "code-server"), ("display", .other 1)]

/-- A small extracted code-server tree. -/
def sampleTree : Files :=
  [(productPath, .json sampleProductJson),
   (pwaManifestPath, .json samplePwaJson),
   (["bin", "code-server"], .bin [0, 1])]

/-- The linux-amd64 release asset of the sample world. -/
def sampleAsset : Asset := ⟨9, "code-server-3.4.1-linux-amd64.tar.gz"⟩

/-- A sample manifest entry. -/
def extC : Extension := ⟨"ms-python", "python", "2021.1.0"⟩

/-- Two manifest entries sharing publisher and name (differing versions). -/
def extA : Extension := ⟨"pub", "ext", "1.0.0"⟩

/-- Second version of the same extension as extA. -/
def extB : Extension := ⟨"pub", "ext", "2.0.0"⟩

/-- A world in which every stage succeeds. -/
def wFull : World where
  manifest := some [extC]
  extGet := fun _ => (200, [7, 7])
  releaseGet := fun _ => (200, [⟨5, "code-server-3.4.1-macos-amd64.tar.gz"⟩, sampleAsset])
  assetGet := fun _ => (200, [("code-server-3.4.1-linux-amd64", sampleTree)])
  icons := [("favicon.ico", .bin [2])]
  userDir := some [(["settings.json"], .bin [3])]
  serviceDir := some [(["code-server.service"], .bin [4])]
  today := "2021-06-01"
  tempName := "tmp7a"

/-- wFull with a manifest of two same-named extensions whose download
bodies differ. -/
def wC2 : World :=
  { wFull with
    manifest := some [extA, extB]
    extGet := fun u => if u = extensionDownloadUrl extA then (200, [1]) else (200, [2]) }

/-- wFull with a release offering only a macos asset. -/
def wC4 : World :=
  { wFull with releaseGet := fun _ => (200, [⟨5, "code-server-3.4.1-macos-amd64.tar.gz"⟩]) }

/-- wFull with a marketplace that rejects every extension download. -/
def wBadExt : World :=
  { wFull with extGet := fun _ => (404, []) }

/-- wFull without a local User directory. -/
def wNoUser : World :=
  { wFull with userDir := none }

/-- The sample editor tree after one customizer application with wFull's
icons. -/
def sampleTreeOnce : Files :=
  [(productPath, .json [("nameShort", .str productNameShort), ("version", .other 0),
     ("nameLong", .str productName)]),
   (pwaManifestPath, .json [("name", .str productName), ("display", .other 1),
     ("short_name", .str productNameShort)]),
   (["bin", "code-server"], .bin [0, 1]),
   (iconPath "favicon.ico", .bin [2])]

/-- The archive the fully successful sample run writes. -/
def sampleArchive : FileData :=
  (make_tarball wFull sampleTreeOnce (download_extensions wFull [extC] []).2.1).1

/-- The partial archive the wNoUser run leaves at the destination: the
editor tree and the extension packages were added before tar.add failed on
the missing User directory. -/
def samplePartialArchive : FileData :=
  .tar "gz" (sampleTreeOnce.map (fun pc => ("code-server" :: pc.1, pc.2)) ++
    [(["code-server", "extension_packages", "ms-python.python.vsix"], FileData.bin [7, 7])])

/-- wFull with an icons directory holding a valid-JSON file named
manifest.json, which the customizer copies over the PWA manifest. -/
def wC6bad : World :=
  { wFull with icons := [("manifest.json", .json [("stray", .other 5)])] }

/-- The result of one customizer application in wC6bad: the icon content
replaced the PWA manifest before it was read, so its pre-customization
fields are gone. -/
def sampleTreeIconClobber : Files :=
  [(productPath, .json [("nameShort", .str productNameShort), ("version", .other 0),
     ("nameLong", .str productName)]),
   (pwaManifestPath, .json [("stray", .other 5), ("short_name", .str productNameShort),
     ("name", .str productName)]),
   (["bin", "code-server"], .bin [0, 1])]

/-! ### Association-list lemmas -/

theorem getKey_setKey_same {κ α : Type} [DecidableEq κ] (m : List (κ × α)) (k : κ) (v : α) :
    getKey (setKey m k v) k = some v := by
  induction m with
  | nil => simp [setKey, getKey]
  | cons p rest ih =>
    by_cases h : p.1 = k
    · simp [setKey, getKey, h]
    · simp [setKey, getKey, h, ih]

theorem getKey_setKey_of_ne {κ α : Type} [DecidableEq κ] (m : List (κ × α)) (k j : κ) (v : α)
    (hne : j ≠ k) : getKey (setKey m k v) j = getKey m j := by
  have hkj : ¬(k = j) := fun h => hne h.symm
  induction m with
  | nil => simp [setKey, getKey, hkj]
  | cons p rest ih =>
    by_cases h : p.1 = k
    · subst h
      simp [setKey, getKey, hkj]
    · by_cases h2 : p.1 = j
      · simp [setKey, getKey, h, h2, hkj, hne]
      · simp [setKey, getKey, h, h2, ih]

theorem hasKey_setKey {κ α : Type} [DecidableEq κ] (m : List (κ × α)) (k j : κ) (v : α) :
    hasKey (setKey m k v) j = (decide (k = j) || hasKey m j) := by
  induction m with
  | nil => simp [setKey, hasKey]
  | cons p rest ih =>
    by_cases h : p.1 = k
    · subst h
      simp only [setKey, if_pos rfl, hasKey]
      cases hkj : decide (p.1 = j) <;> simp_all
    · simp only [setKey, if_neg h, hasKey, ih]
      cases hkj : decide (k = j) <;> cases hpj : decide (p.1 = j) <;> simp_all

theorem length_setKey_of_not_hasKey {κ α : Type} [DecidableEq κ]
    (m : List (κ × α)) (k : κ) (v : α) (h : hasKey m k = false) :
    (setKey m k v).length = m.length + 1 := by
  induction m with
  | nil => simp [setKey]
  | cons p rest ih =>
    simp only [hasKey, Bool.or_eq_false_iff, decide_eq_false_iff_not] at h
    simp [setKey, h.1, ih h.2]

/-! ### The asset-selection fold -/

theorem foldl_lastMatch {α : Type} (p : α → Bool) (l : List α) (acc : Option α) :
    l.foldl (fun a x => if p x then some x else a) acc =
      Option.elim ((l.filter p).getLast?) acc some := by
  induction l using List.reverseRecOn generalizing acc with
  | nil => simp
  | append_singleton l a ih =>
    by_cases h : p a
    · simp [List.foldl_append, List.filter_append, h, List.getLast?_concat]
    · simp [List.foldl_append, List.filter_append, h, ih]

theorem selectAsset_eq_getLast (assets : List Asset) (architecture : String) :
    selectAsset assets architecture =
      (assets.filter (fun asset => strContains asset.name architecture)).getLast? := by
  rw [selectAsset, foldl_lastMatch]
  cases (assets.filter (fun asset => strContains asset.name architecture)).getLast? <;> rfl

theorem selectAsset_eq_none (assets : List Asset) (architecture : String)
    (h : ∀ asset ∈ assets, strContains asset.name architecture = false) :
    selectAsset assets architecture = none := by
  rw [selectAsset_eq_getLast, List.filter_eq_nil_iff.mpr (by simpa using h)]
  rfl

/-! ### Lemmas about download_extensions -/

theorem download_extensions_ok (w : World) (exts : List Extension)
    (files : List (String × Bytes))
    (h : ∀ e ∈ exts, (w.extGet (extensionDownloadUrl e)).1 = 200) :
    (download_extensions w exts files).1 = exts ∧
    (download_extensions w exts files).2.2 = none := by
  induction exts generalizing files with
  | nil => simp [download_extensions]
  | cons e rest ih =>
    have he := h e (by simp)
    have hrest := ih (setKey files (extensionFileName e) (w.extGet (extensionDownloadUrl e)).2)
      (fun x hx => h x (by simp [hx]))
    simp only [download_extensions, he, if_true, ite_true]
    exact ⟨by simp [hrest.1], hrest.2⟩

theorem download_extensions_getKey_of_not_mem (w : World) (exts : List Extension)
    (files : List (String × Bytes)) (k : String)
    (hk : k ∉ exts.map extensionFileName) :
    getKey (download_extensions w exts files).2.1 k = getKey files k := by
  induction exts generalizing files with
  | nil => simp [download_extensions]
  | cons e rest ih =>
    simp only [List.map_cons, List.mem_cons, not_or] at hk
    by_cases h : (w.extGet (extensionDownloadUrl e)).1 = 200
    · simp only [download_extensions, h, if_true, ite_true]
      rw [ih _ hk.2, getKey_setKey_of_ne _ _ _ _ hk.1]
    · simp [download_extensions, h]

theorem download_extensions_getKey (w : World) (exts : List Extension)
    (files : List (String × Bytes))
    (h200 : ∀ e ∈ exts, (w.extGet (extensionDownloadUrl e)).1 = 200)
    (hnodup : (exts.map extensionFileName).Nodup) :
    ∀ e ∈ exts, getKey (download_extensions w exts files).2.1 (extensionFileName e) =
      some (w.extGet (extensionDownloadUrl e)).2 := by
  induction exts generalizing files with
  | nil => simp
  | cons e rest ih =>
    intro x hx
    have he200 := h200 e (by simp)
    simp only [download_extensions, he200, if_true, ite_true]
    rcases List.mem_cons.mp hx with rfl | hmem
    · have hnot : extensionFileName x ∉ rest.map extensionFileName := by
        simpa using (List.nodup_cons.mp hnodup).1
      rw [download_extensions_getKey_of_not_mem w rest _ _ hnot, getKey_setKey_same]
    · exact ih _ (fun y hy => h200 y (by simp [hy])) (List.nodup_cons.mp hnodup).2 x hmem

theorem download_extensions_length (w : World) (exts : List Extension)
    (files : List (String × Bytes))
    (h200 : ∀ e ∈ exts, (w.extGet (extensionDownloadUrl e)).1 = 200)
    (hnodup : (exts.map extensionFileName).Nodup)
    (hfresh : ∀ e ∈ exts, hasKey files (extensionFileName e) = false) :
    (download_extensions w exts files).2.1.length = files.length + exts.length := by
  induction exts generalizing files with
  | nil => simp [download_extensions]
  | cons e rest ih =>
    have he200 := h200 e (by simp)
    have hfresh2 : ∀ x ∈ rest,
        hasKey (setKey files (extensionFileName e) (w.extGet (extensionDownloadUrl e)).2)
          (extensionFileName x) = false := by
      intro x hx
      rw [hasKey_setKey]
      have hne : extensionFileName e ≠ extensionFileName x := by
        intro hcontra
        exact (List.nodup_cons.mp hnodup).1 (hcontra ▸ List.mem_map_of_mem extensionFileName hx)
      simp [hne, hfresh x (by simp [hx])]
    simp only [download_extensions, he200, if_true, ite_true]
    rw [ih _ (fun y hy => h200 y (by simp [hy])) (List.nodup_cons.mp hnodup).2 hfresh2,
      length_setKey_of_not_hasKey _ _ _ (hfresh e (by simp))]
    simp [Nat.add_assoc, Nat.add_comm 1]

theorem download_extensions_fail (w : World) (pre : List Extension) (bad : Extension)
    (post : List Extension) (files : List (String × Bytes))
    (hpre : ∀ e ∈ pre, (w.extGet (extensionDownloadUrl e)).1 = 200)
    (hbad : (w.extGet (extensionDownloadUrl bad)).1 ≠ 200) :
    (download_extensions w (pre ++ bad :: post) files).1 = pre ++ [bad] ∧
    (download_extensions w (pre ++ bad :: post) files).2.2 =
      some ("can\x27t get extension " ++ bad.name) := by
  induction pre generalizing files with
  | nil => simp [download_extensions, hbad]
  | cons e rest ih =>
    have he := hpre e (by simp)
    have hrest := ih (setKey files (extensionFileName e) (w.extGet (extensionDownloadUrl e)).2)
      (fun x hx => hpre x (by simp [hx]))
    simp only [List.cons_append, download_extensions, he, if_true, ite_true]
    exact ⟨by simp [hrest.1], hrest.2⟩

/-! ### Lemmas about the pipeline -/

theorem filter_head_ne_nil (tmp : String) (l : Files)
    (h : ∀ pc ∈ l, pc.1.head? = some tmp) :
    l.filter (fun pc => pc.1.head? ≠ some tmp) = [] := by
  apply List.filter_eq_nil_iff.mpr
  intro pc hpc
  simp [h pc hpc]

theorem getKey_foldl_setKey (l : List (String × FileData)) (tree : Files) (p : List String)
    (h : ∀ ic ∈ l, iconPath ic.1 ≠ p) :
    getKey (l.foldl (fun t ic => setKey t (iconPath ic.1) ic.2) tree) p = getKey tree p := by
  induction l generalizing tree with
  | nil => rfl
  | cons ic rest ih =>
    simp only [List.foldl_cons]
    rw [ih _ (fun x hx => h x (by simp [hx])),
      getKey_setKey_of_ne _ _ _ _ (Ne.symm (h ic (by simp)))]

theorem getKey_copyIcons (w : World) (tree : Files) (p : List String)
    (h : ∀ ic ∈ w.icons, iconPath ic.1 ≠ p) :
    getKey (copyIcons w tree) p = getKey tree p :=
  getKey_foldl_setKey w.icons tree p h

theorem pipelineBody_ok_name (w : World) (release architecture : String)
    (exts : List Extension) (tmp dest : String) (out : String)
    (h : (pipelineBody w release architecture exts tmp dest).2.1 = .ok out) :
    out = w.today ++ "_" ++ architecture ++ "_code-server.tgz" := by
  unfold pipelineBody at h
  cases hcs : download_code_server w release architecture with
  | error e => simp [hcs] at h
  | ok cs =>
    simp only [hcs] at h
    cases hcust : customize_code_server w cs with
    | error e => simp [hcust] at h
    | ok cs2 =>
      simp only [hcust] at h
      cases hext : (download_extensions w exts []).2.2 with
      | some e => simp [hext] at h
      | none =>
        simp only [hext] at h
        cases htar : (make_tarball w cs2 (download_extensions w exts []).2.1).2 with
        | some e => simp [htar] at h
        | none =>
          simp only [htar] at h
          exact (Except.ok.inj h).symm

theorem pipelineBody_trace (w : World) (release architecture : String)
    (exts : List Extension) (tmp dest : String) :
    (∃ t, (pipelineBody w release architecture exts tmp dest).1 ++ t =
      [.editorFetched, .customized, .extensionsFetched, .archived]) ∧
    (∀ out, (pipelineBody w release architecture exts tmp dest).2.1 = .ok out →
      (pipelineBody w release architecture exts tmp dest).1 =
        [.editorFetched, .customized, .extensionsFetched, .archived]) := by
  unfold pipelineBody
  cases hcs : download_code_server w release architecture with
  | error e =>
    exact ⟨⟨[.editorFetched, .customized, .extensionsFetched, .archived], by simp⟩,
      by intro out hout; simp at hout⟩
  | ok cs =>
    simp only
    cases hcust : customize_code_server w cs with
    | error e =>
      exact ⟨⟨[.customized, .extensionsFetched, .archived], by simp⟩,
        by intro out hout; simp at hout⟩
    | ok cs2 =>
      simp only
      cases hext : (download_extensions w exts []).2.2 with
      | some e =>
        exact ⟨⟨[.extensionsFetched, .archived], by simp⟩,
          by intro out hout; simp at hout⟩
      | none =>
        simp only
        cases htar : (make_tarball w cs2 (download_extensions w exts []).2.1).2 with
        | some e =>
          exact ⟨⟨[.archived], by simp⟩, by intro out hout; simp at hout⟩
        | none =>
          exact ⟨⟨[], by simp⟩, by intro out _; rfl⟩

theorem main_fs (w : World) (release architecture dest : String) (bucket : Option String)
    (exts : List Extension) (hm : w.manifest = some exts) :
    (main w release architecture dest bucket).fs =
      (pipelineBody w release architecture exts w.tempName dest).2.2.filter
        (fun pc => pc.1.head? ≠ some w.tempName) := by
  simp only [main, hm]
  cases (pipelineBody w release architecture exts w.tempName dest).2.1 with
  | error e => rfl
  | ok out => cases bucket <;> rfl

theorem loadJsonAt_eq_ok {tree : Files} {p : List String} {obj : List (String × Jval)} :
    loadJsonAt tree p = .ok obj ↔ getKey tree p = some (.json obj) := by
  unfold loadJsonAt
  cases hg : getKey tree p with
  | none => simp
  | some fd => cases fd <;> simp

theorem getKey_two_setKey (m : List (String × Jval)) (kS kL k : String) (vS vL : Jval)
    (hne : kS ≠ kL) :
    getKey (setKey (setKey m kS vS) kL vL) k =
      if k = kL then some vL else if k = kS then some vS else getKey m k := by
  by_cases h1 : k = kL
  · subst h1
    rw [getKey_setKey_same]
    simp
  · rw [getKey_setKey_of_ne _ _ _ _ h1]
    by_cases h2 : k = kS
    · subst h2
      rw [getKey_setKey_same]
      simp [h1]
    · rw [getKey_setKey_of_ne _ _ _ _ h2]
      simp [h1, h2]

theorem nodup_of_append_eq {α : Type} (l t s : List α) (h : l ++ t = s) (hs : s.Nodup) :
    l.Nodup := by
  have hsub : l.Sublist s := h ▸ List.sublist_append_left l t
  exact List.Nodup.sublist hsub hs

/-! ### Claims -/

/-- C3: when resolving a release's asset list, the asset selected is the
last asset (in list order) whose name contains the requested architecture
token as a substring; if several assets match, the last matching one wins. -/
theorem C3_last_matching_asset_wins (assets : List Asset) (architecture : String) :
    selectAsset assets architecture =
      (assets.filter (fun asset => strContains asset.name architecture)).getLast? :=
  selectAsset_eq_getLast assets architecture

/-- C4: for every release whose asset list contains no asset name with the
requested architecture token as a substring, download_code_server fails
with an invalid-architecture error naming the requested token and the
release, the whole run fails, and no archive and no upload is produced. -/
theorem C4_no_matching_architecture_fails (w : World) (release architecture dest : String)
    (bucket : Option String) (exts : List Extension) (assets : List Asset)
    (hm : w.manifest = some exts)
    (hr : w.releaseGet release = (200, assets))
    (hnone : ∀ asset ∈ assets, strContains asset.name architecture = false) :
    download_code_server w release architecture =
      .error ("architecture " ++ architecture ++ " not found in release " ++ release) ∧
    (main w release architecture dest bucket).result =
      .error ("architecture " ++ architecture ++ " not found in release " ++ release) ∧
    (main w release architecture dest bucket).fs = [] ∧
    (main w release architecture dest bucket).uploads = [] := by
  have hdl : download_code_server w release architecture =
      .error ("architecture " ++ architecture ++ " not found in release " ++ release) := by
    simp only [download_code_server, hr]
    simp [selectAsset_eq_none assets architecture hnone]
  refine ⟨hdl, ?_, ?_, ?_⟩ <;> simp [main, hm, pipelineBody, hdl]

/-- C4 witness: a concrete release carrying only a macos asset makes the
linux-arm64 run fail with the architecture error. -/
theorem C4_witness :
    (∀ asset ∈ [(⟨5, "code-server-3.4.1-macos-amd64.tar.gz"⟩ : Asset)],
      strContains asset.name "linux-arm64" = false) ∧
    (main wC4 "latest" "linux-arm64" "out" none).result =
      .error ("architecture " ++ "linux-arm64" ++ " not found in release " ++ "latest") :=
  ⟨by decide, (C4_no_matching_architecture_fails wC4 "latest" "linux-arm64" "out" none
      [extC] [⟨5, "code-server-3.4.1-macos-amd64.tar.gz"⟩] rfl rfl (by decide)).2.1⟩

/-- C10: after extracting the downloaded editor asset, download_code_server
relocates exactly the extracted top-level directory whose name equals the
selected asset's name with its final 7 characters removed, and fails if no
such directory exists. -/
theorem C10_relocates_trimmed_asset_directory (w : World) (release architecture : String)
    (assets : List Asset) (asset : Asset) (extracted : List (String × Files))
    (hr : w.releaseGet release = (200, assets))
    (hsel : selectAsset assets architecture = some asset)
    (ha : w.assetGet asset.id = (200, extracted)) :
    (∀ tree, getKey extracted (asset.name.dropRight 7) = some tree →
      download_code_server w release architecture = .ok tree) ∧
    (getKey extracted (asset.name.dropRight 7) = none →
      ∃ e, download_code_server w release architecture = .error e) := by
  constructor
  · intro tree htree
    simp only [download_code_server, hr, hsel]
    simp [ha, htree]
  · intro hnone
    refine ⟨"copytree: no directory " ++ asset.name.dropRight 7, ?_⟩
    simp only [download_code_server, hr, hsel]
    simp [ha, hnone]

/-- C10 witness: in the sample world the selected asset is
code-server-3.4.1-linux-amd64.tar.gz and the directory
code-server-3.4.1-linux-amd64 of the extracted archive becomes the editor
tree. -/
theorem C10_witness :
    wFull.releaseGet "latest" =
      (200, [⟨5, "code-server-3.4.1-macos-amd64.tar.gz"⟩, sampleAsset]) ∧
    selectAsset [⟨5, "code-server-3.4.1-macos-amd64.tar.gz"⟩, sampleAsset] "linux-amd64" =
      some sampleAsset ∧
    getKey [("code-server-3.4.1-linux-amd64", sampleTree)] (sampleAsset.name.dropRight 7) =
      some sampleTree ∧
    download_code_server wFull "latest" "linux-amd64" = .ok sampleTree :=
  ⟨rfl, by decide, rfl,
    (C10_relocates_trimmed_asset_directory wFull "latest" "linux-amd64"
      [⟨5, "code-server-3.4.1-macos-amd64.tar.gz"⟩, sampleAsset] sampleAsset
      [("code-server-3.4.1-linux-amd64", sampleTree)] rfl (by decide) rfl).1 sampleTree rfl⟩

/-- C2 counterexample: a manifest of two descriptors sharing publisher and
name (different versions) downloads successfully yet produces one file, not
two, because both descriptors map to the file name pub.ext.vsix; moreover
the surviving file holds the second descriptor's response body [2], not the
first's [1], refuting the claim for arbitrary manifests. -/
theorem C2_counterexample :
    (∀ e ∈ [extA, extB], (wC2.extGet (extensionDownloadUrl e)).1 = 200) ∧
    (download_extensions wC2 [extA, extB] []).2.2 = none ∧
    [extA, extB].length = 2 ∧
    (download_extensions wC2 [extA, extB] []).2.1.length = 1 ∧
    (download_extensions wC2 [extA, extB] []).2.1.length ≠ [extA, extB].length ∧
    getKey (download_extensions wC2 [extA, extB] []).2.1 (extensionFileName extA) =
      some [2] ∧
    (wC2.extGet (extensionDownloadUrl extA)).2 = [1] :=
  ⟨by decide, by decide, by decide, by decide, by decide, by decide, by decide⟩

/-- C2 (amended): for every manifest whose descriptors map to pairwise
distinct file names publisher.name.vsix, a successful run of
download_extensions requests every descriptor, produces exactly N files,
and each file publisher.name.vsix holds the verbatim response body of that
descriptor's download URL. -/
theorem C2_fetcher_produces_one_file_per_descriptor (w : World) (exts : List Extension)
    (h200 : ∀ e ∈ exts, (w.extGet (extensionDownloadUrl e)).1 = 200)
    (hnodup : (exts.map extensionFileName).Nodup) :
    (download_extensions w exts []).1 = exts ∧
    (download_extensions w exts []).2.2 = none ∧
    (download_extensions w exts []).2.1.length = exts.length ∧
    ∀ e ∈ exts, getKey (download_extensions w exts []).2.1 (extensionFileName e) =
      some (w.extGet (extensionDownloadUrl e)).2 := by
  refine ⟨(download_extensions_ok w exts [] h200).1, (download_extensions_ok w exts [] h200).2,
    ?_, download_extensions_getKey w exts [] h200 hnodup⟩
  have hlen := download_extensions_length w exts [] h200 hnodup (fun e _ => rfl)
  simpa using hlen

/-- C2 witness: the one-descriptor sample manifest yields exactly the file
ms-python.python.vsix with the response body. -/
theorem C2_witness :
    (∀ e ∈ [extC], (wFull.extGet (extensionDownloadUrl e)).1 = 200) ∧
    ([extC].map extensionFileName).Nodup ∧
    ((download_extensions wFull [extC] []).1 = [extC] ∧
     (download_extensions wFull [extC] []).2.2 = none ∧
     (download_extensions wFull [extC] []).2.1.length = [extC].length ∧
     ∀ e ∈ [extC], getKey (download_extensions wFull [extC] []).2.1 (extensionFileName e) =
       some (wFull.extGet (extensionDownloadUrl e)).2) :=
  ⟨by decide, by decide,
    C2_fetcher_produces_one_file_per_descriptor wFull [extC] (by decide) (by decide)⟩

/-- C1: if fetching any extension of the manifest fails (a non-200
marketplace response), download_extensions aborts at that descriptor with
an error naming the extension, no descriptor after it is requested, and
the whole run produces neither an archive nor an upload. -/
theorem C1_extension_failure_aborts_run (w : World) (release architecture dest : String)
    (bucket : Option String) (pre : List Extension) (bad : Extension) (post : List Extension)
    (cs cs2 : Files)
    (hm : w.manifest = some (pre ++ bad :: post))
    (hpre : ∀ e ∈ pre, (w.extGet (extensionDownloadUrl e)).1 = 200)
    (hbad : (w.extGet (extensionDownloadUrl bad)).1 ≠ 200)
    (hcs : download_code_server w release architecture = .ok cs)
    (hcust : customize_code_server w cs = .ok cs2) :
    (download_extensions w (pre ++ bad :: post) []).1 = pre ++ [bad] ∧
    (download_extensions w (pre ++ bad :: post) []).2.2 =
      some ("can\x27t get extension " ++ bad.name) ∧
    (main w release architecture dest bucket).result =
      .error ("can\x27t get extension " ++ bad.name) ∧
    (main w release architecture dest bucket).fs = [] ∧
    (main w release architecture dest bucket).uploads = [] := by
  obtain ⟨hreq, herr⟩ := download_extensions_fail w pre bad post [] hpre hbad
  have hbody : pipelineBody w release architecture (pre ++ bad :: post) w.tempName dest =
      ([.editorFetched, .customized], .error ("can\x27t get extension " ++ bad.name),
        cs2.map (fun pc => (w.tempName :: "code-server" :: pc.1, pc.2)) ++
        (download_extensions w (pre ++ bad :: post) []).2.1.map
          (fun nc => ([w.tempName, "extension_packages", nc.1], FileData.bin nc.2))) := by
    simp only [pipelineBody, hcs, hcust, herr]
  have hfs : (cs2.map (fun pc => (w.tempName :: "code-server" :: pc.1, pc.2)) ++
        (download_extensions w (pre ++ bad :: post) []).2.1.map
          (fun nc => ([w.tempName, "extension_packages", nc.1], FileData.bin nc.2))).filter
        (fun pc => pc.1.head? ≠ some w.tempName) = [] := by
    apply filter_head_ne_nil
    intro pc hpc
    rcases List.mem_append.mp hpc with hl | hr
    · rcases List.mem_map.mp hl with ⟨x, _, rfl⟩
      rfl
    · rcases List.mem_map.mp hr with ⟨x, _, rfl⟩
      rfl
  refine ⟨hreq, herr, ?_, ?_, ?_⟩
  · simp [main, hm, hbody]
  · rw [main_fs w release architecture dest bucket (pre ++ bad :: post) hm, hbody]
    exact hfs
  · simp [main, hm, hbody]

/-- C1 witness: a marketplace rejecting the single manifest entry with 404
makes the run abort with the error naming it and leave no file behind. -/
theorem C1_witness :
    (wBadExt.extGet (extensionDownloadUrl extC)).1 ≠ 200 ∧
    (main wBadExt "latest" "linux-amd64" "out" none).result =
      .error ("can\x27t get extension " ++ extC.name) ∧
    (main wBadExt "latest" "linux-amd64" "out" none).fs = [] := by
  have h := C1_extension_failure_aborts_run wBadExt "latest" "linux-amd64" "out" none
    [] extC [] sampleTree sampleTreeOnce rfl (by simp) (by decide) rfl rfl
  exact ⟨by decide, h.2.2.1, h.2.2.2.1⟩

/-- C8: the staging directory tree is removed on every exit path of the
run: no file under the temporary directory's name survives in the final
file system, after success and after any failure alike. -/
theorem C8_staging_removed_on_every_exit (w : World) (release architecture dest : String)
    (bucket : Option String) :
    ∀ p c, (p, c) ∈ (main w release architecture dest bucket).fs →
      p.head? ≠ some w.tempName := by
  intro p c hmem
  cases hm : w.manifest with
  | none => simp [main, hm] at hmem
  | some exts =>
    rw [main_fs w release architecture dest bucket exts hm] at hmem
    exact of_decide_eq_true (List.mem_filter.mp hmem).2

/-- C8 witness: the successful sample run leaves exactly the archive at the
destination, whose path does not start with the staging directory name. -/
theorem C8_witness :
    (["out", "2021-06-01_linux-amd64_code-server.tgz"], sampleArchive) ∈
      (main wFull "latest" "linux-amd64" "out" none).fs ∧
    (["out", "2021-06-01_linux-amd64_code-server.tgz"] : List String).head? ≠
      some wFull.tempName := by
  have hfs : (main wFull "latest" "linux-amd64" "out" none).fs =
      [(["out", "2021-06-01_linux-amd64_code-server.tgz"], sampleArchive)] := rfl
  have hmem : (["out", "2021-06-01_linux-amd64_code-server.tgz"], sampleArchive) ∈
      (main wFull "latest" "linux-amd64" "out" none).fs := by
    rw [hfs]
    exact List.mem_singleton.mpr rfl
  exact ⟨hmem, C8_staging_removed_on_every_exit wFull "latest" "linux-amd64" "out" none
    _ _ hmem⟩

/-- C9: the upload runs exactly when a bucket is configured: with no bucket
no upload call is issued, and with a bucket a successful run issues the
single PUT of the archive under evergreen/vscode/<archive filename> with a
public-read ACL, while a failed run issues none. -/
theorem C9_upload_iff_bucket (w : World) (release architecture dest : String) :
    ((main w release architecture dest none).uploads = []) ∧
    (∀ bucket,
      ((main w release architecture dest (some bucket)).result = .ok () →
        (main w release architecture dest (some bucket)).uploads =
          [⟨bucket, "evergreen/vscode/" ++ (w.today ++ "_" ++ architecture ++ "_code-server.tgz"),
            "public-read"⟩]) ∧
      (∀ e, (main w release architecture dest (some bucket)).result = .error e →
        (main w release architecture dest (some bucket)).uploads = [])) := by
  cases hm : w.manifest with
  | none => simp [main, hm]
  | some exts =>
    cases hres : (pipelineBody w release architecture exts w.tempName dest).2.1 with
    | error e2 => simp [main, hm, hres]
    | ok out =>
      have hname := pipelineBody_ok_name w release architecture exts w.tempName dest out hres
      subst hname
      simp [main, hm, hres]

/-- C9 witness: the successful sample run with bucket bkt uploads exactly
one object under evergreen/vscode/ with public-read, and without a bucket
uploads nothing. -/
theorem C9_witness :
    (main wFull "latest" "linux-amd64" "out" (some "bkt")).result = .ok () ∧
    (main wFull "latest" "linux-amd64" "out" none).uploads = [] ∧
    (main wFull "latest" "linux-amd64" "out" (some "bkt")).uploads =
      [⟨"bkt", "evergreen/vscode/" ++ (wFull.today ++ "_" ++ "linux-amd64" ++ "_code-server.tgz"),
        "public-read"⟩] :=
  ⟨rfl, (C9_upload_iff_bucket wFull "latest" "linux-amd64" "out").1,
    ((C9_upload_iff_bucket wFull "latest" "linux-amd64" "out").2 "bkt").1 rfl⟩

/-- C5 counterexample: in the fully successful sample run the pipeline
completes with stage order manifest loaded, editor fetched, customized,
extensions fetched, archived — not the claimed order in which all
extensions are fetched before the editor: the code fetches and customizes
the editor before fetching any extension. -/
theorem C5_counterexample :
    (main wFull "latest" "linux-amd64" "out" none).result = .ok () ∧
    (main wFull "latest" "linux-amd64" "out" none).trace =
      [.manifestLoaded, .editorFetched, .customized, .extensionsFetched, .archived] ∧
    (main wFull "latest" "linux-amd64" "out" none).trace ≠
      [.manifestLoaded, .extensionsFetched, .editorFetched, .customized, .archived] :=
  ⟨rfl, by decide, by decide⟩

/-- C5 (amended): the stages execute in the order manifest loaded, editor
fetched, customized, extensions fetched, archived, optionally published:
every run's trace is an initial segment of that order, no stage repeats,
and a successful run realizes the whole order, with published included
exactly when a bucket is configured; a failing stage leaves the result an
error (surfaced as a non-zero exit) with the trace cut off before it. -/
theorem C5_stage_order (w : World) (release architecture dest : String)
    (bucket : Option String) :
    (∃ t, (main w release architecture dest bucket).trace ++ t = stageOrder) ∧
    (main w release architecture dest bucket).trace.Nodup ∧
    ((main w release architecture dest bucket).result = .ok () →
      (main w release architecture dest bucket).trace =
        if bucket.isSome then stageOrder else stageOrder.dropLast) := by
  cases hm : w.manifest with
  | none =>
    refine ⟨⟨stageOrder, ?_⟩, ?_, ?_⟩ <;> simp [main, hm, stageOrder]
  | some exts =>
    obtain ⟨⟨t0, ht0⟩, hok⟩ := pipelineBody_trace w release architecture exts w.tempName dest
    cases hres : (pipelineBody w release architecture exts w.tempName dest).2.1 with
    | error e =>
      have htr : (main w release architecture dest bucket).trace =
          .manifestLoaded :: (pipelineBody w release architecture exts w.tempName dest).1 := by
        simp only [main, hm, hres]
      have hresult : (main w release architecture dest bucket).result = .error e := by
        simp only [main, hm, hres]
      have hpre2 : (Stage.manifestLoaded ::
          (pipelineBody w release architecture exts w.tempName dest).1) ++
          (t0 ++ [.published]) = stageOrder := by
        rw [List.cons_append, ← List.append_assoc, ht0]
        rfl
      refine ⟨⟨t0 ++ [.published], by rw [htr]; exact hpre2⟩,
        by rw [htr]; exact nodup_of_append_eq _ _ _ hpre2 (by decide), ?_⟩
      rw [hresult]
      intro hcontra
      exact absurd hcontra (by simp)
    | ok out =>
      have hbody1 := hok out hres
      cases bucket with
      | none =>
        have htr : (main w release architecture dest none).trace =
            .manifestLoaded :: (pipelineBody w release architecture exts w.tempName dest).1 := by
          simp only [main, hm, hres]
        refine ⟨⟨[.published], by rw [htr, hbody1]; rfl⟩,
          by rw [htr, hbody1]; decide, ?_⟩
        intro _
        rw [htr, hbody1]
        rfl
      | some b =>
        have htr : (main w release architecture dest (some b)).trace =
            .manifestLoaded ::
              (pipelineBody w release architecture exts w.tempName dest).1 ++ [.published] := by
          simp only [main, hm, hres]
        refine ⟨⟨[], by rw [htr, hbody1]; rfl⟩, by rw [htr, hbody1]; decide, ?_⟩
        intro _
        rw [htr, hbody1]
        rfl

/-- C5 witness: the fully successful sample run with a bucket realizes the
entire stage order. -/
theorem C5_witness :
    (main wFull "latest" "linux-amd64" "out" (some "bkt")).result = .ok () ∧
    (main wFull "latest" "linux-amd64" "out" (some "bkt")).trace = stageOrder :=
  ⟨rfl, by
    have h := (C5_stage_order wFull "latest" "linux-amd64" "out" (some "bkt")).2.2 rfl
    simpa using h⟩

/-- C7 counterexample: with the local User passthrough directory absent and
everything else as in the successful sample run, the run fails — refuting
that the absence of a passthrough directory does not fail the run.
Moreover tarfile.open had already created the destination file and the
code-server and extension_packages members were added before tar.add on
the missing User directory raised, so a partial archive (editor tree plus
extension packages, no User or service entries) is left at the
destination. -/
theorem C7_counterexample :
    wNoUser.userDir = none ∧
    (main wNoUser "latest" "linux-amd64" "out" none).result =
      .error "tar add: User not found" ∧
    (main wNoUser "latest" "linux-amd64" "out" none).fs =
      [(["out", "2021-06-01_linux-amd64_code-server.tgz"], samplePartialArchive)] :=
  ⟨rfl, rfl, rfl⟩

/-- C7 (amended): the archive is a gzip-compressed tar whose entries are
exactly the editor tree under code-server/, the extension binaries under
code-server/extension_packages/, and the User and service passthrough
directories under code-server/User/ and code-server/service/, with relative
paths preserved; however the passthrough directories are required: the
absence of either fails the run, leaving at the destination a partial
archive holding the entries added before the failure. -/
theorem C7_archive_layout (w : World) (cs : Files) (exts : List (String × Bytes))
    (user service : Files)
    (hu : w.userDir = some user) (hs : w.serviceDir = some service) :
    (∃ entries, make_tarball w cs exts = (.tar "gz" entries, none) ∧
      (∀ p c, (p, c) ∈ cs → ("code-server" :: p, c) ∈ entries) ∧
      (∀ n b, (n, b) ∈ exts →
        (["code-server", "extension_packages", n], FileData.bin b) ∈ entries) ∧
      (∀ p c, (p, c) ∈ user → ("code-server" :: "User" :: p, c) ∈ entries) ∧
      (∀ p c, (p, c) ∈ service → ("code-server" :: "service" :: p, c) ∈ entries) ∧
      (∀ q c, (q, c) ∈ entries →
        (∃ p, q = "code-server" :: p ∧ (p, c) ∈ cs) ∨
        (∃ n b, q = ["code-server", "extension_packages", n] ∧ c = FileData.bin b ∧
          (n, b) ∈ exts) ∨
        (∃ p, q = "code-server" :: "User" :: p ∧ (p, c) ∈ user) ∨
        (∃ p, q = "code-server" :: "service" :: p ∧ (p, c) ∈ service))) ∧
    (∀ (w2 : World) (cs2 : Files) (exts2 : List (String × Bytes)), w2.userDir = none →
      make_tarball w2 cs2 exts2 =
        (.tar "gz" (cs2.map (fun pc => ("code-server" :: pc.1, pc.2)) ++
          exts2.map (fun nc => (["code-server", "extension_packages", nc.1],
            FileData.bin nc.2))),
         some "tar add: User not found")) ∧
    (∀ (w2 : World) (cs2 : Files) (exts2 : List (String × Bytes)) (u2 : Files),
      w2.userDir = some u2 → w2.serviceDir = none →
      make_tarball w2 cs2 exts2 =
        (.tar "gz" (cs2.map (fun pc => ("code-server" :: pc.1, pc.2)) ++
          exts2.map (fun nc => (["code-server", "extension_packages", nc.1],
            FileData.bin nc.2)) ++
          u2.map (fun pc => ("code-server" :: "User" :: pc.1, pc.2))),
         some "tar add: service not found")) := by
  have hmk : make_tarball w cs exts = (.tar "gz"
      (cs.map (fun pc => ("code-server" :: pc.1, pc.2)) ++
       exts.map (fun nc => (["code-server", "extension_packages", nc.1], FileData.bin nc.2)) ++
       user.map (fun pc => ("code-server" :: "User" :: pc.1, pc.2)) ++
       service.map (fun pc => ("code-server" :: "service" :: pc.1, pc.2))), none) := by
    simp [make_tarball, hu, hs]
  refine ⟨⟨_, hmk, ?_, ?_, ?_, ?_, ?_⟩, ?_, ?_⟩
  · intro p c h
    exact List.mem_append_left _ (List.mem_append_left _ (List.mem_append_left _
      (List.mem_map_of_mem _ h)))
  · intro n b h
    exact List.mem_append_left _ (List.mem_append_left _ (List.mem_append_right _
      (List.mem_map_of_mem _ h)))
  · intro p c h
    exact List.mem_append_left _ (List.mem_append_right _ (List.mem_map_of_mem _ h))
  · intro p c h
    exact List.mem_append_right _ (List.mem_map_of_mem _ h)
  · intro q c h
    rcases List.mem_append.mp h with h123 | h4
    · rcases List.mem_append.mp h123 with h12 | h3
      · rcases List.mem_append.mp h12 with h1 | h2
        · obtain ⟨⟨p0, c0⟩, hmem0, heq0⟩ := List.mem_map.mp h1
          cases heq0
          exact Or.inl ⟨p0, rfl, hmem0⟩
        · obtain ⟨⟨n0, b0⟩, hmem0, heq0⟩ := List.mem_map.mp h2
          cases heq0
          exact Or.inr (Or.inl ⟨n0, b0, rfl, rfl, hmem0⟩)
      · obtain ⟨⟨p0, c0⟩, hmem0, heq0⟩ := List.mem_map.mp h3
        cases heq0
        exact Or.inr (Or.inr (Or.inl ⟨p0, rfl, hmem0⟩))
    · obtain ⟨⟨p0, c0⟩, hmem0, heq0⟩ := List.mem_map.mp h4
      cases heq0
      exact Or.inr (Or.inr (Or.inr ⟨p0, rfl, hmem0⟩))
  · intro w2 cs2 exts2 h
    simp [make_tarball, h]
  · intro w2 cs2 exts2 u2 hu2 hs2
    simp [make_tarball, hu2, hs2]

/-- C6 counterexample: with a valid-JSON icon file named manifest.json the
icon copy overwrites the PWA manifest before it is read (ICON_PATH contains
PWA_MANIFEST_PATH), yet the first customizer application still succeeds and
a second application reproduces the same tree; the pre-customization
display field of manifest.json is nevertheless lost, refuting the claimed
retention of every other field for arbitrary icon directories. -/
theorem C6_counterexample :
    manifestField sampleTree "display" = some (.other 1) ∧
    customize_code_server wC6bad sampleTree = .ok sampleTreeIconClobber ∧
    customize_code_server wC6bad sampleTreeIconClobber = .ok sampleTreeIconClobber ∧
    manifestField sampleTreeIconClobber "name" = some (.str productName) ∧
    manifestField sampleTreeIconClobber "short_name" = some (.str productNameShort) ∧
    manifestField sampleTreeIconClobber "display" = none :=
  ⟨rfl, rfl, rfl, rfl, rfl, rfl⟩

/-- C6 (amended): the customizer is idempotent on the JSON configuration
provided no file of the local icons directory is named manifest.json (such
an icon is copied over the PWA manifest inside ICON_PATH before it is
read): applying it twice in succession to the same extracted editor tree
yields the same final JSON field values as applying it once — the
short/long name fields of product.json and of the PWA manifest.json equal
the configured constants, and every other field retains its
pre-customization value. -/
theorem C6_customizer_idempotent (w : World) (tree tree1 : Files)
    (hIc : ∀ ic ∈ w.icons, ic.1 ≠ "manifest.json")
    (h1 : customize_code_server w tree = .ok tree1) :
    ∃ tree2, customize_code_server w tree1 = .ok tree2 ∧
      productField tree2 "nameShort" = some (.str productNameShort) ∧
      productField tree2 "nameLong" = some (.str productName) ∧
      (∀ k, k ≠ "nameShort" → k ≠ "nameLong" → productField tree2 k = productField tree k) ∧
      manifestField tree2 "short_name" = some (.str productNameShort) ∧
      manifestField tree2 "name" = some (.str productName) ∧
      (∀ k, k ≠ "short_name" → k ≠ "name" → manifestField tree2 k = manifestField tree k) ∧
      (∀ k, productField tree2 k = productField tree1 k) ∧
      (∀ k, manifestField tree2 k = manifestField tree1 k) := by
  have hIconProduct : ∀ ic ∈ w.icons, iconPath ic.1 ≠ productPath := by
    intro ic _ h
    simp [iconPath, productPath] at h
  have hIconPwa : ∀ ic ∈ w.icons, iconPath ic.1 ≠ pwaManifestPath := by
    intro ic hic h
    exact hIc ic hic (by simpa [iconPath, pwaManifestPath] using h)
  have hPwaProd : productPath ≠ pwaManifestPath := by decide
  simp only [customize_code_server] at h1
  cases hpj : loadJsonAt (copyIcons w tree) productPath with
  | error e =>
    simp only [hpj] at h1
    exact (Except.noConfusion h1)
  | ok pj =>
    simp only [hpj] at h1
    set P2 := setKey (setKey pj "nameShort" (Jval.str productNameShort)) "nameLong"
      (Jval.str productName) with hP2def
    cases hmj : loadJsonAt (setKey (copyIcons w tree) productPath (FileData.json P2))
        pwaManifestPath with
    | error e =>
      simp only [hmj] at h1
      exact (Except.noConfusion h1)
    | ok mj =>
      simp only [hmj] at h1
      set M2 := setKey (setKey mj "short_name" (Jval.str productNameShort)) "name"
        (Jval.str productName) with hM2def
      have htree1 : tree1 = setKey (setKey (copyIcons w tree) productPath
          (FileData.json P2)) pwaManifestPath (FileData.json M2) := (Except.ok.inj h1).symm
      subst htree1
      set T1 := setKey (setKey (copyIcons w tree) productPath (FileData.json P2))
        pwaManifestPath (FileData.json M2) with hT1def
      have hg1 : getKey tree productPath = some (.json pj) := by
        have hx := loadJsonAt_eq_ok.mp hpj
        rwa [getKey_copyIcons w tree productPath hIconProduct] at hx
      have hg2 : getKey tree pwaManifestPath = some (.json mj) := by
        have hx := loadJsonAt_eq_ok.mp hmj
        rw [getKey_setKey_of_ne _ _ _ _ (Ne.symm hPwaProd),
          getKey_copyIcons w tree pwaManifestPath hIconPwa] at hx
        exact hx
      have hT1prod : getKey T1 productPath = some (.json P2) := by
        rw [hT1def, getKey_setKey_of_ne _ _ _ _ hPwaProd, getKey_setKey_same]
      have hT1pwa : getKey T1 pwaManifestPath = some (.json M2) := by
        rw [hT1def, getKey_setKey_same]
      have hL1 : loadJsonAt (copyIcons w T1) productPath = .ok P2 :=
        loadJsonAt_eq_ok.mpr
          (by rw [getKey_copyIcons w T1 productPath hIconProduct, hT1prod])
      set P3 := setKey (setKey P2 "nameShort" (Jval.str productNameShort)) "nameLong"
        (Jval.str productName) with hP3def
      have hL2 : loadJsonAt (setKey (copyIcons w T1) productPath (FileData.json P3))
          pwaManifestPath = .ok M2 :=
        loadJsonAt_eq_ok.mpr (by
          rw [getKey_setKey_of_ne _ _ _ _ (Ne.symm hPwaProd),
            getKey_copyIcons w T1 pwaManifestPath hIconPwa, hT1pwa])
      set M3 := setKey (setKey M2 "short_name" (Jval.str productNameShort)) "name"
        (Jval.str productName) with hM3def
      have hcust2 : customize_code_server w T1 = .ok (setKey (setKey (copyIcons w T1)
          productPath (FileData.json P3)) pwaManifestPath (FileData.json M3)) := by
        simp only [customize_code_server, hL1, hL2, hP3def, hM3def]
      set T2f := setKey (setKey (copyIcons w T1) productPath (FileData.json P3))
        pwaManifestPath (FileData.json M3) with hT2fdef
      have hT2prod : getKey T2f productPath = some (.json P3) := by
        rw [hT2fdef, getKey_setKey_of_ne _ _ _ _ hPwaProd, getKey_setKey_same]
      have hT2pwa : getKey T2f pwaManifestPath = some (.json M3) := by
        rw [hT2fdef, getKey_setKey_same]
      refine ⟨T2f, hcust2, ?_, ?_, ?_, ?_, ?_, ?_, ?_, ?_⟩
      · simp only [productField, hT2prod]
        rw [hP3def, getKey_two_setKey _ _ _ _ _ _ (by decide)]
        simp
      · simp only [productField, hT2prod]
        rw [hP3def, getKey_two_setKey _ _ _ _ _ _ (by decide)]
        simp
      · intro k hk1 hk2
        simp only [productField, hT2prod, hg1]
        rw [hP3def, getKey_two_setKey _ _ _ _ _ _ (by decide),
          hP2def, getKey_two_setKey _ _ _ _ _ _ (by decide)]
        simp [hk1, hk2]
      · simp only [manifestField, hT2pwa]
        rw [hM3def, getKey_two_setKey _ _ _ _ _ _ (by decide)]
        simp
      · simp only [manifestField, hT2pwa]
        rw [hM3def, getKey_two_setKey _ _ _ _ _ _ (by decide)]
        simp
      · intro k hk1 hk2
        simp only [manifestField, hT2pwa, hg2]
        rw [hM3def, getKey_two_setKey _ _ _ _ _ _ (by decide),
          hM2def, getKey_two_setKey _ _ _ _ _ _ (by decide)]
        simp [hk1, hk2]
      · intro k
        simp only [productField, hT2prod, hT1prod]
        rw [hP3def, getKey_two_setKey _ _ _ _ _ _ (by decide)]
        by_cases hkL : k = "nameLong"
        · subst hkL
          rw [hP2def, getKey_two_setKey _ _ _ _ _ _ (by decide)]
          simp
        · by_cases hkS : k = "nameShort"
          · subst hkS
            rw [hP2def, getKey_two_setKey _ _ _ _ _ _ (by decide)]
            simp
          · simp [hkL, hkS]
      · intro k
        simp only [manifestField, hT2pwa, hT1pwa]
        rw [hM3def, getKey_two_setKey _ _ _ _ _ _ (by decide)]
        by_cases hkL : k = "name"
        · subst hkL
          rw [hM2def, getKey_two_setKey _ _ _ _ _ _ (by decide)]
          simp
        · by_cases hkS : k = "short_name"
          · subst hkS
            rw [hM2def, getKey_two_setKey _ _ _ _ _ _ (by decide)]
            simp
          · simp [hkL, hkS]

/-- C6 witness: customizing the sample tree once gives sampleTreeOnce, and
the second application keeps all JSON field values. -/
theorem C6_witness :
    (∀ ic ∈ wFull.icons, ic.1 ≠ "manifest.json") ∧
    customize_code_server wFull sampleTree = .ok sampleTreeOnce ∧
    (∃ tree2, customize_code_server wFull sampleTreeOnce = .ok tree2 ∧
      productField tree2 "nameShort" = some (.str productNameShort) ∧
      productField tree2 "nameLong" = some (.str productName) ∧
      (∀ k, k ≠ "nameShort" → k ≠ "nameLong" →
        productField tree2 k = productField sampleTree k) ∧
      manifestField tree2 "short_name" = some (.str productNameShort) ∧
      manifestField tree2 "name" = some (.str productName) ∧
      (∀ k, k ≠ "short_name" → k ≠ "name" →
        manifestField tree2 k = manifestField sampleTree k) ∧
      (∀ k, productField tree2 k = productField sampleTreeOnce k) ∧
      (∀ k, manifestField tree2 k = manifestField sampleTreeOnce k)) :=
  ⟨by decide, rfl,
    C6_customizer_idempotent wFull sampleTree sampleTreeOnce (by decide) rfl⟩

/-- C7 witness: in the sample world the archive of the sample tree plus one
extension file has the documented gzip layout. -/
theorem C7_witness :
    wFull.userDir = some [(["settings.json"], FileData.bin [3])] ∧
    wFull.serviceDir = some [(["code-server.service"], FileData.bin [4])] ∧
    ((∃ entries, make_tarball wFull sampleTree [("ms-python.python.vsix", [7, 7])] =
        (.tar "gz" entries, none) ∧
      (∀ p c, (p, c) ∈ sampleTree → ("code-server" :: p, c) ∈ entries) ∧
      (∀ n b, (n, b) ∈ [("ms-python.python.vsix", ([7, 7] : Bytes))] →
        (["code-server", "extension_packages", n], FileData.bin b) ∈ entries) ∧
      (∀ p c, (p, c) ∈ [(["settings.json"], FileData.bin [3])] →
        ("code-server" :: "User" :: p, c) ∈ entries) ∧
      (∀ p c, (p, c) ∈ [(["code-server.service"], FileData.bin [4])] →
        ("code-server" :: "service" :: p, c) ∈ entries) ∧
      (∀ q c, (q, c) ∈ entries →
        (∃ p, q = "code-server" :: p ∧ (p, c) ∈ sampleTree) ∨
        (∃ n b, q = ["code-server", "extension_packages", n] ∧ c = FileData.bin b ∧
          (n, b) ∈ [("ms-python.python.vsix", ([7, 7] : Bytes))]) ∨
        (∃ p, q = "code-server" :: "User" :: p ∧
          (p, c) ∈ [(["settings.json"], FileData.bin [3])]) ∨
        (∃ p, q = "code-server" :: "service" :: p ∧
          (p, c) ∈ [(["code-server.service"], FileData.bin [4])]))) ∧
    (∀ (w2 : World) (cs2 : Files) (exts2 : List (String × Bytes)), w2.userDir = none →
      make_tarball w2 cs2 exts2 =
        (.tar "gz" (cs2.map (fun pc => ("code-server" :: pc.1, pc.2)) ++
          exts2.map (fun nc => (["code-server", "extension_packages", nc.1],
            FileData.bin nc.2))),
         some "tar add: User not found")) ∧
    (∀ (w2 : World) (cs2 : Files) (exts2 : List (String × Bytes)) (u2 : Files),
      w2.userDir = some u2 → w2.serviceDir = none →
      make_tarball w2 cs2 exts2 =
        (.tar "gz" (cs2.map (fun pc => ("code-server" :: pc.1, pc.2)) ++
          exts2.map (fun nc => (["code-server", "extension_packages", nc.1],
            FileData.bin nc.2)) ++
          u2.map (fun pc => ("code-server" :: "User" :: pc.1, pc.2))),
         some "tar add: service not found"))) :=
  ⟨rfl, rfl,
    C7_archive_layout wFull sampleTree [("ms-python.python.vsix", [7, 7])]
      [(["settings.json"], FileData.bin [3])] [(["code-server.service"], FileData.bin [4])]
      rfl rfl⟩

end MakeTarball
